import Mathlib

/-!
Shallow embedding of the Decision Client of the legal-due-diligence
repository: the Zustand store (`frontend/src/stores/appStore.ts`) and the
`ApprovalPanel` React component, together with the protocol data model
(`frontend/src/types/index.ts`).

JavaScript collections are modelled by their observable semantics:
a `Set` is an insertion-ordered duplicate-free list, a `Map` is an
insertion-ordered association list whose `set` keeps the original position
of an overwritten key.  Dynamic JSON values are modelled by the inductive
type `Json`.  The platform builtins `JSON.parse` / `JSON.stringify` are not
repository code; functions that call them are parameterised by them
(`parse : String → Option Json`, with `none` standing for the thrown
exception on invalid input, and `stringify : Json → String`).
-/

/-- Dynamic JSON values (the `any` / `Record` values moved by the client). -/
inductive Json where
  | null : Json
  | bool (b : Bool) : Json
  | num (n : Int) : Json
  | str (s : String) : Json
  | arr (elems : List Json) : Json
  | obj (fields : List (String × Json)) : Json

/-- JS `Set.add`: append the element if it is not already present. -/
def jsSetAdd {α : Type} [DecidableEq α] (s : List α) (x : α) : List α :=
  if x ∈ s then s else s ++ [x]

/-- JS `new Set(xs)`: insert the elements of `xs` in order. -/
def jsSetFrom {α : Type} [DecidableEq α] (xs : List α) : List α :=
  xs.foldl jsSetAdd []

/-- JS `Map.get`: value of the first (unique) entry with the given key. -/
def jsMapGet {κ α : Type} [DecidableEq κ] (m : List (κ × α)) (k : κ) : Option α :=
  match m with
  | [] => none
  | (k₀, v) :: rest => if k = k₀ then some v else jsMapGet rest k

/-- JS `Map.set`: overwrite in place if the key is present, else append. -/
def jsMapSet {κ α : Type} [DecidableEq κ] (m : List (κ × α)) (k : κ) (v : α) :
    List (κ × α) :=
  match m with
  | [] => [(k, v)]
  | (k₀, v₀) :: rest =>
    if k = k₀ then (k, v) :: rest else (k₀, v₀) :: jsMapSet rest k v

/-- Field lookup on a JSON object; `none` on non-objects and missing keys. -/
def jGet (j : Json) (k : String) : Option Json :=
  match j with
  | Json.obj fields => jsMapGet fields k
  | _ => none

/-- JS truthiness test on a nullable string (`!value`): true on `null`
and on the empty string. -/
def jsFalsy : Option String → Bool
  | none => true
  | some s => s.isEmpty

/-- Document list entry (types/index.ts `Document`). -/
structure Document where
  id : String
  filename : String
  summary : String
  pages : Int
  uploaded_at : String

/-- Per-page metadata (types/index.ts `DocumentPage`). -/
structure DocumentPage where
  num : Int
  summary : String
  legally_significant : Bool

/-- Detailed document info (types/index.ts `DocumentDetail`). -/
structure DocumentDetail where
  id : String
  filename : String
  summary : String
  page_count : Int
  pages : List DocumentPage
  uploaded_at : String

/-- A highlighted document attached to an approval request. -/
structure DocumentHighlight where
  doc_id : String
  reason : String
  legally_significant_pages : List Int
  all_pages_summary : List (Int × String)

/-- A highlighted set of pages attached to an approval request. -/
structure PageHighlight where
  doc_id : String
  page_nums : List Int
  context : String

/-- A highlighted file attached to an approval request. -/
structure FileHighlight where
  file_path : String
  operation : String
  content_preview : String

/-- An approval request as received by the client (types/index.ts). -/
structure ApprovalRequest where
  request_id : String
  tool_name : String
  tool_args : Json
  allowed_decisions : List String
  document_highlights : List DocumentHighlight
  page_highlights : List PageHighlight
  file_highlights : List FileHighlight
  agent_reasoning : String
  related_todos : List String
  timestamp : String

/-- A task-list entry (types/index.ts `Todo`). -/
structure Todo where
  content : String
  status : String
  activeForm : String

/-- A workflow event as stored by the client. -/
structure WorkflowEvent where
  event_type : String
  data : Json
  timestamp : String

/-- A file created by the agent (types/index.ts `AgentFile`). -/
structure AgentFile where
  path : String
  content : String
  updated_at : String

/-- The client UI projection (types/index.ts `UIState`). -/
inductive UIState where
  | idle : UIState
  | agent_running : UIState
  | awaiting_approval (request : ApprovalRequest) : UIState
  | completed : UIState
  | error (message : String) : UIState

/-- The Zustand store state (appStore.ts `AppState`).  The WebSocket field
is modelled by whether it is non-null. -/
structure AppState where
  sessionId : Option String
  ws : Bool
  uiState : UIState
  documents : List Document
  selectedDocumentId : Option String
  selectedDocumentDetail : Option DocumentDetail
  highlightedDocumentIds : List String
  highlightedPages : List (String × List Int)
  files : List (String × AgentFile)
  selectedFilePath : Option String
  highlightedFilePaths : List String
  currentPdfPage : Int
  todos : List Todo
  workflowEvents : List WorkflowEvent
  leftPanelWidth : Int
  rightPanelWidth : Int
  centerTopHeight : Int

/-- The store's initial state (appStore.ts, creation of the store). -/
def initialState : AppState where
  sessionId := none
  ws := false
  uiState := UIState.idle
  documents := []
  selectedDocumentId := none
  selectedDocumentDetail := none
  highlightedDocumentIds := []
  highlightedPages := []
  files := []
  selectedFilePath := none
  highlightedFilePaths := []
  currentPdfPage := 1
  todos := []
  workflowEvents := []
  leftPanelWidth := 20
  rightPanelWidth := 20
  centerTopHeight := 25

/-- The decision envelope built by `submitDecision`:
an object with fields type, request_id and decision. -/
def decisionEnvelope (request_id : String) (decision : Json) : Json :=
  Json.obj [("type", Json.str "approval_decision"),
            ("request_id", Json.str request_id),
            ("decision", decision)]

/-- appStore.ts `submitDecision`: guarded by an open socket and the
`awaiting_approval` state; sends the envelope, clears the highlight
projection and returns to `agent_running`.  The optional second component
is the message written to the socket. -/
def submitDecision (decision : Json) (s : AppState) : AppState × Option Json :=
  match s.uiState with
  | UIState.awaiting_approval request =>
    if s.ws then
      ({ s with uiState := UIState.agent_running,
                highlightedDocumentIds := [],
                highlightedPages := [],
                highlightedFilePaths := [] },
       some (decisionEnvelope request.request_id decision))
    else (s, none)
  | _ => (s, none)

/-- Iterated `submitDecision` calls with no intervening message handling;
returns the final state and the list of transmitted messages. -/
def submitMany (ds : List Json) (s : AppState) : AppState × List Json :=
  match ds with
  | [] => (s, [])
  | d :: rest =>
    let step := submitDecision d s
    let next := submitMany rest step.1
    (next.1, step.2.toList ++ next.2)

/-- One step of the fold building the page-highlight map from
`document_highlights` (appStore.ts `handleApprovalRequest`):
`pageHighlights.set(dh.doc_id, new Set(dh.legally_significant_pages))`. -/
def docHighlightStep (m : List (String × List Int)) (dh : DocumentHighlight) :
    List (String × List Int) :=
  jsMapSet m dh.doc_id (jsSetFrom dh.legally_significant_pages)

/-- One step of the fold merging `page_highlights` into the map
(appStore.ts `handleApprovalRequest`): fetch the existing set (or a fresh
one), add all `page_nums`, store it back. -/
def pageHighlightStep (m : List (String × List Int)) (ph : PageHighlight) :
    List (String × List Int) :=
  let existing := (jsMapGet m ph.doc_id).getD []
  jsMapSet m ph.doc_id (ph.page_nums.foldl jsSetAdd existing)

/-- appStore.ts `handleApprovalRequest`: derive the highlight projection
from the request, auto-select the first highlighted document when none is
selected, and enter `awaiting_approval`. -/
def handleApprovalRequest (request : ApprovalRequest) (s : AppState) : AppState :=
  let docIds := jsSetFrom (request.document_highlights.map DocumentHighlight.doc_id)
  let pageHighlights :=
    request.page_highlights.foldl pageHighlightStep
      (request.document_highlights.foldl docHighlightStep [])
  let fileHighlights := jsSetFrom (request.file_highlights.map FileHighlight.file_path)
  let currentSelected := s.selectedDocumentId
  let newSelected :=
    if 0 < docIds.length ∧ jsFalsy currentSelected then docIds.head?
    else currentSelected
  { s with uiState := UIState.awaiting_approval request,
           highlightedDocumentIds := docIds,
           highlightedPages := pageHighlights,
           highlightedFilePaths := fileHighlights,
           selectedDocumentId := newSelected }

/-- appStore.ts `handleAgentStatus`: map a status string onto the UI
projection; unrecognised statuses change nothing. -/
def handleAgentStatus (status : String) (details : String) (s : AppState) : AppState :=
  if status = "completed" then { s with uiState := UIState.completed }
  else if status = "failed" then { s with uiState := UIState.error details }
  else if status = "running" then { s with uiState := UIState.agent_running }
  else s

/-- appStore.ts `handleTodosUpdate`: replace the todo list. -/
def handleTodosUpdate (todos : List Todo) (s : AppState) : AppState :=
  { s with todos := todos }

/-- appStore.ts `handleWorkflowEvent`: append the event, stamped with the
current time (passed in as a parameter). -/
def handleWorkflowEvent (event_type : String) (data : Json) (now : String)
    (s : AppState) : AppState :=
  { s with workflowEvents :=
      s.workflowEvents ++ [{ event_type := event_type, data := data, timestamp := now }] }

/-- The decision object built by the panel's Approve button. -/
def approveDecision : Json :=
  Json.obj [("type", Json.str "approve")]

/-- The decision object built by the panel's Confirm Edit button:
type edit with an edited_action of name and args. -/
def editDecision (name : String) (args : Json) : Json :=
  Json.obj [("type", Json.str "edit"),
            ("edited_action", Json.obj [("name", Json.str name), ("args", args)])]

/-- The decision object built by the panel's Reject button. -/
def rejectDecision (reason : String) : Json :=
  Json.obj [("type", Json.str "reject"), ("reason", Json.str reason)]

/-- User interactions available on the `ApprovalPanel`. -/
inductive PanelEvent where
  | clickApprove : PanelEvent
  | clickEdit : PanelEvent
  | clickReject : PanelEvent
  | clickCancel : PanelEvent
  | setArgs (text : String) : PanelEvent

/-- The store state together with the panel's local React state
(`isEditing`, `editedArgs`). -/
structure ClientState where
  store : AppState
  isEditing : Bool
  editedArgs : String

/-- One interaction step of the `ApprovalPanel` component.  `parse` and
`stringify` stand for the `JSON.parse` / `JSON.stringify` builtins.  When
the store is not in `awaiting_approval` the panel renders nothing, so every
event is a no-op; a disabled or unrendered button likewise cannot fire.
The optional result is the message transmitted through the store's
`submitDecision`. -/
def panelStep (parse : String → Option Json) (stringify : Json → String)
    (ev : PanelEvent) (c : ClientState) : ClientState × Option Json :=
  match c.store.uiState with
  | UIState.awaiting_approval request =>
    match ev with
    | PanelEvent.clickApprove =>
      if c.isEditing then (c, none)
      else
        let step := submitDecision approveDecision c.store
        ({ c with store := step.1, isEditing := false }, step.2)
    | PanelEvent.clickEdit =>
      if "edit" ∈ request.allowed_decisions then
        if c.isEditing then
          match parse c.editedArgs with
          | some parsed =>
            let step := submitDecision (editDecision request.tool_name parsed) c.store
            ({ c with store := step.1, isEditing := false }, step.2)
          | none => (c, none)
        else
          ({ c with editedArgs := stringify request.tool_args, isEditing := true }, none)
      else (c, none)
    | PanelEvent.clickReject =>
      if "reject" ∈ request.allowed_decisions ∧ c.isEditing = false then
        let step := submitDecision (rejectDecision "User rejected") c.store
        ({ c with store := step.1, isEditing := false }, step.2)
      else (c, none)
    | PanelEvent.clickCancel =>
      if c.isEditing then ({ c with isEditing := false }, none) else (c, none)
    | PanelEvent.setArgs text =>
      if c.isEditing then ({ c with editedArgs := text }, none) else (c, none)
  | _ => (c, none)

/-- Spec-side auxiliary: the last document highlight of the request bearing
a given doc_id, which is the one whose pages survive the overwriting fold. -/
def lastWins (dhs : List DocumentHighlight) (d : String) : Option DocumentHighlight :=
  match dhs with
  | [] => none
  | dh :: rest =>
    match lastWins rest d with
    | some dh₁ => some dh₁
    | none => if dh.doc_id = d then some dh else none

/-- Spec-side auxiliary: the legally significant pages contributed to a
doc_id by the document highlights, under the code's last-wins semantics. -/
def lastDocPages (r : ApprovalRequest) (d : String) : List Int :=
  match lastWins r.document_highlights d with
  | some dh => dh.legally_significant_pages
  | none => []

/-- Spec-side auxiliary: all page numbers listed for a doc_id by the
request's page highlights. -/
def pageNumsFor (r : ApprovalRequest) (d : String) : List Int :=
  ((r.page_highlights.filter (fun ph => ph.doc_id = d)).map PageHighlight.page_nums).flatten

/-- Modelled from the spec claim wording (not from the code): the union of
the legally_significant_pages of all document highlights bearing a doc_id
and the page_nums of all its page highlights. -/
def specPageUnion (r : ApprovalRequest) (d : String) : List Int :=
  ((r.document_highlights.filter (fun dh => dh.doc_id = d)).map
      DocumentHighlight.legally_significant_pages).flatten ++ pageNumsFor r d

/-- A concrete approval request used to instantiate the theorems. -/
def sampleRequest : ApprovalRequest where
  request_id := "req-1"
  tool_name := "get_page_text"
  tool_args := Json.obj [("doc_id", Json.str "d1")]
  allowed_decisions := ["approve", "edit", "reject"]
  document_highlights := [{ doc_id := "d1", reason := "lease review",
                            legally_significant_pages := [3, 4],
                            all_pages_summary := [] }]
  page_highlights := [{ doc_id := "d1", page_nums := [4, 7], context := "indemnity" }]
  file_highlights := [{ file_path := "report.md", operation := "write",
                        content_preview := "draft" }]
  agent_reasoning := "needs review"
  related_todos := ["review lease"]
  timestamp := "t0"

/-- A concrete request whose allowed_decisions exclude the approve
variant. -/
def restrictedRequest : ApprovalRequest :=
  { sampleRequest with allowed_decisions := ["reject"] }

/-- A concrete request with two document highlights bearing the same
doc_id but different legally significant pages. -/
def dupDocRequest : ApprovalRequest :=
  { sampleRequest with
      document_highlights :=
        [{ doc_id := "d", reason := "first", legally_significant_pages := [1],
           all_pages_summary := [] },
         { doc_id := "d", reason := "second", legally_significant_pages := [2],
           all_pages_summary := [] }],
      page_highlights := [] }

/-- A concrete store state awaiting approval of `sampleRequest` over an
open channel. -/
def awaitingState : AppState :=
  { initialState with ws := true,
                      uiState := UIState.awaiting_approval sampleRequest }

/-- The store state after a decision has been submitted from
`awaitingState`. -/
def afterSubmitState : AppState :=
  { awaitingState with uiState := UIState.agent_running }

/-- A concrete client state presenting `restrictedRequest`, not editing. -/
def restrictedClient : ClientState where
  store := { initialState with ws := true,
                               uiState := UIState.awaiting_approval restrictedRequest }
  isEditing := false
  editedArgs := ""

/-- A concrete client state presenting `sampleRequest` in editing mode. -/
def editingClient : ClientState where
  store := awaitingState
  isEditing := true
  editedArgs := "not json"

/-- A parse function that fails on every input (stands for `JSON.parse`
on syntactically invalid text). -/
def parseNone : String → Option Json := fun _ => none

/-- A parse function that succeeds with a fixed structured map. -/
def parseSample : String → Option Json :=
  fun _ => some (Json.obj [("doc_id", Json.str "d2")])

/-- A stringify function standing in for `JSON.stringify`. -/
def stringifySample : Json → String := fun _ => ""

/-- The client state after the reject decision is submitted from
`restrictedClient`. -/
def restrictedAfterClient : ClientState where
  store := { initialState with ws := true, uiState := UIState.agent_running }
  isEditing := false
  editedArgs := ""

/-- The client state after the edit decision is submitted from
`editingClient`. -/
def editingAfterClient : ClientState where
  store := afterSubmitState
  isEditing := false
  editedArgs := "not json"

/-- The concrete edit decision produced by confirming an edit of
`sampleRequest` whose arguments parse to the map of `parseSample`. -/
def editSample : Json :=
  editDecision "get_page_text" (Json.obj [("doc_id", Json.str "d2")])

theorem mem_jsSetAdd {α : Type} [DecidableEq α] (s : List α) (x y : α) :
    y ∈ jsSetAdd s x ↔ y ∈ s ∨ y = x := by
  unfold jsSetAdd
  split
  case isTrue h =>
    exact ⟨Or.inl, fun h₁ => h₁.elim id (fun he => he ▸ h)⟩
  case isFalse h =>
    simp [List.mem_append]

theorem mem_foldl_jsSetAdd {α : Type} [DecidableEq α] (xs acc : List α) (y : α) :
    y ∈ xs.foldl jsSetAdd acc ↔ y ∈ acc ∨ y ∈ xs := by
  induction xs generalizing acc with
  | nil => simp
  | cons x rest ih =>
    simp only [List.foldl_cons, ih, mem_jsSetAdd, List.mem_cons]
    tauto

theorem mem_jsSetFrom {α : Type} [DecidableEq α] (xs : List α) (y : α) :
    y ∈ jsSetFrom xs ↔ y ∈ xs := by
  unfold jsSetFrom
  simp [mem_foldl_jsSetAdd]

theorem jsSetAdd_head {α : Type} [DecidableEq α] (s : List α) (x : α) (h : s ≠ []) :
    (jsSetAdd s x).head? = s.head? ∧ jsSetAdd s x ≠ [] := by
  unfold jsSetAdd
  split
  case isTrue _ => exact ⟨rfl, h⟩
  case isFalse _ =>
    cases s with
    | nil => exact absurd rfl h
    | cons a t => simp

theorem foldl_jsSetAdd_head {α : Type} [DecidableEq α] (xs acc : List α) (h : acc ≠ []) :
    (xs.foldl jsSetAdd acc).head? = acc.head? ∧ xs.foldl jsSetAdd acc ≠ [] := by
  induction xs generalizing acc with
  | nil => exact ⟨rfl, h⟩
  | cons x rest ih =>
    have hstep := jsSetAdd_head acc x h
    have hrec := ih (jsSetAdd acc x) hstep.2
    exact ⟨by rw [List.foldl_cons, hrec.1, hstep.1], by rw [List.foldl_cons]; exact hrec.2⟩

theorem jsSetFrom_cons_head {α : Type} [DecidableEq α] (x : α) (xs : List α) :
    (jsSetFrom (x :: xs)).head? = some x := by
  unfold jsSetFrom
  rw [List.foldl_cons]
  have hadd : jsSetAdd ([] : List α) x = [x] := by simp [jsSetAdd]
  rw [hadd]
  exact (foldl_jsSetAdd_head xs [x] (by simp)).1

theorem jsSetFrom_cons_ne_nil {α : Type} [DecidableEq α] (x : α) (xs : List α) :
    jsSetFrom (x :: xs) ≠ [] := by
  intro h
  have := jsSetFrom_cons_head x xs
  rw [h] at this
  exact Option.noConfusion this

theorem jsMapGet_jsMapSet {κ α : Type} [DecidableEq κ]
    (m : List (κ × α)) (k k₁ : κ) (v : α) :
    jsMapGet (jsMapSet m k v) k₁ = if k₁ = k then some v else jsMapGet m k₁ := by
  induction m with
  | nil => simp [jsMapSet, jsMapGet]
  | cons e rest ih =>
    obtain ⟨k₀, v₀⟩ := e
    by_cases hk : k = k₀
    · subst hk
      simp only [jsMapSet, if_pos rfl, jsMapGet]
      by_cases h₁ : k₁ = k <;> simp [h₁]
    · simp only [jsMapSet, if_neg hk, jsMapGet, ih]
      by_cases h₁ : k₁ = k₀ <;> by_cases h₂ : k₁ = k <;> simp_all

theorem docFold_get (dhs : List DocumentHighlight)
    (init : List (String × List Int)) (d : String) :
    jsMapGet (dhs.foldl docHighlightStep init) d =
      match lastWins dhs d with
      | some dh => some (jsSetFrom dh.legally_significant_pages)
      | none => jsMapGet init d := by
  induction dhs generalizing init with
  | nil => simp [lastWins]
  | cons dh rest ih =>
    rw [List.foldl_cons, ih]
    cases h : lastWins rest d with
    | some dh₁ => simp [lastWins, h]
    | none =>
      simp only [lastWins, h]
      unfold docHighlightStep
      rw [jsMapGet_jsMapSet]
      by_cases hd : dh.doc_id = d
      · rw [if_pos hd, if_pos hd.symm]
      · rw [if_neg hd, if_neg (fun h₁ => hd h₁.symm)]

theorem lastWins_eq_none (dhs : List DocumentHighlight) (d : String) :
    lastWins dhs d = none ↔ ∀ dh ∈ dhs, dh.doc_id ≠ d := by
  induction dhs with
  | nil => simp [lastWins]
  | cons dh rest ih =>
    simp only [lastWins, List.mem_cons]
    cases h : lastWins rest d with
    | some dh₁ =>
      simp only [reduceCtorEq, false_iff, not_forall]
      have hmem : ¬ ∀ dh₂ ∈ rest, dh₂.doc_id ≠ d := by
        rw [← ih, h]; simp
      push_neg at hmem
      obtain ⟨dh₂, hdh₂, hid⟩ := hmem
      exact ⟨dh₂, Or.inr hdh₂, by simp [hid]⟩
    | none =>
      rw [h] at ih
      by_cases hd : dh.doc_id = d
      · simp only [if_pos hd, reduceCtorEq, false_iff, not_forall]
        exact ⟨dh, Or.inl rfl, by simp [hd]⟩
      · simp only [if_neg hd]
        constructor
        · intro _ dh₂ hdh₂
          rcases hdh₂ with h₂ | h₂
          · exact h₂ ▸ hd
          · exact (ih.mp rfl) dh₂ h₂
        · intro _; trivial

theorem lastWins_mem (dhs : List DocumentHighlight) (d : String)
    (dh : DocumentHighlight) (h : lastWins dhs d = some dh) :
    dh ∈ dhs ∧ dh.doc_id = d := by
  induction dhs with
  | nil => exact absurd h (by simp [lastWins])
  | cons dh₀ rest ih =>
    simp only [lastWins] at h
    cases h₁ : lastWins rest d with
    | some dh₁ =>
      rw [h₁] at h
      obtain rfl : dh₁ = dh := by injection h
      have := ih h₁
      exact ⟨List.mem_cons_of_mem dh₀ this.1, this.2⟩
    | none =>
      rw [h₁] at h
      by_cases hd : dh₀.doc_id = d
      · rw [if_pos hd] at h
        obtain rfl : dh₀ = dh := by injection h
        exact ⟨List.mem_cons_self dh₀ rest, hd⟩
      · rw [if_neg hd] at h
        exact absurd h (by simp)

theorem lastWins_of_nodup (dhs : List DocumentHighlight) (d : String)
    (hnd : (dhs.map DocumentHighlight.doc_id).Nodup)
    (dh : DocumentHighlight) (hmem : dh ∈ dhs) (hd : dh.doc_id = d) :
    lastWins dhs d = some dh := by
  induction dhs with
  | nil => exact absurd hmem (by simp)
  | cons dh₀ rest ih =>
    rw [List.map_cons, List.nodup_cons] at hnd
    rcases List.mem_cons.mp hmem with h₀ | h₀
    · subst h₀
      have hnone : lastWins rest d = none := by
        rw [lastWins_eq_none]
        intro dh₂ hdh₂ hid
        have hmem₂ : dh₂.doc_id ∈ List.map DocumentHighlight.doc_id rest :=
          List.mem_map_of_mem DocumentHighlight.doc_id hdh₂
        rw [hid, ← hd] at hmem₂
        exact hnd.1 hmem₂
      simp [lastWins, hnone, hd]
    · have := ih hnd.2 h₀
      simp [lastWins, this]

theorem pageFold_mem (phs : List PageHighlight)
    (init : List (String × List Int)) (d : String) (x : Int) :
    (∃ v, jsMapGet (phs.foldl pageHighlightStep init) d = some v ∧ x ∈ v) ↔
      ((∃ v, jsMapGet init d = some v ∧ x ∈ v) ∨
        ∃ ph, ph ∈ phs ∧ ph.doc_id = d ∧ x ∈ ph.page_nums) := by
  induction phs generalizing init with
  | nil => simp
  | cons ph rest ih =>
    rw [List.foldl_cons, ih]
    have hkey : (∃ v, jsMapGet (pageHighlightStep init ph) d = some v ∧ x ∈ v) ↔
        ((∃ v, jsMapGet init d = some v ∧ x ∈ v) ∨
          (ph.doc_id = d ∧ x ∈ ph.page_nums)) := by
      simp only [pageHighlightStep]
      rw [jsMapGet_jsMapSet]
      by_cases hd : d = ph.doc_id
      · subst hd
        simp only [if_pos rfl]
        cases hg : jsMapGet init ph.doc_id with
        | none => simp [hg, mem_foldl_jsSetAdd]
        | some v₀ => simp [hg, mem_foldl_jsSetAdd]
      · rw [if_neg hd]
        have hd₁ : ¬ ph.doc_id = d := fun h => hd h.symm
        simp [hd₁]
    rw [hkey]
    constructor
    · rintro ((h | h) | h)
      · exact Or.inl h
      · exact Or.inr ⟨ph, List.mem_cons_self ph rest, h.1, h.2⟩
      · obtain ⟨ph₁, hmem, hrest⟩ := h
        exact Or.inr ⟨ph₁, List.mem_cons_of_mem ph hmem, hrest⟩
    · rintro (h | ⟨ph₁, hmem, hid, hx⟩)
      · exact Or.inl (Or.inl h)
      · rcases List.mem_cons.mp hmem with rfl | hmem₁
        · exact Or.inl (Or.inr ⟨hid, hx⟩)
        · exact Or.inr ⟨ph₁, hmem₁, hid, hx⟩

theorem submitDecision_inv (d : Json) (s s₁ : AppState) (m : Json)
    (h : submitDecision d s = (s₁, some m)) :
    ∃ r, s.uiState = UIState.awaiting_approval r ∧ s.ws = true ∧
      m = decisionEnvelope r.request_id d ∧
      s₁ = { s with uiState := UIState.agent_running,
                    highlightedDocumentIds := [],
                    highlightedPages := [],
                    highlightedFilePaths := [] } := by
  unfold submitDecision at h
  split at h
  case h_1 r hui =>
    split at h
    case isTrue hws =>
      simp only [Prod.mk.injEq, Option.some.injEq] at h
      exact ⟨r, hui, hws, h.2.symm, h.1.symm⟩
    case isFalse hws =>
      simp at h
  case h_2 hui =>
    simp at h

theorem mem_pageNumsFor (r : ApprovalRequest) (d : String) (x : Int) :
    x ∈ pageNumsFor r d ↔
      ∃ ph, ph ∈ r.page_highlights ∧ ph.doc_id = d ∧ x ∈ ph.page_nums := by
  unfold pageNumsFor
  simp only [List.mem_flatten, List.mem_map, List.mem_filter, decide_eq_true_eq]
  constructor
  · rintro ⟨l, ⟨ph, ⟨hmem, hid⟩, rfl⟩, hx⟩
    exact ⟨ph, hmem, hid, hx⟩
  · rintro ⟨ph, hmem, hid, hx⟩
    exact ⟨ph.page_nums, ⟨ph, ⟨hmem, hid⟩, rfl⟩, hx⟩

theorem mem_lastDocPages (r : ApprovalRequest) (d : String) (x : Int) :
    x ∈ lastDocPages r d ↔
      ∃ dh, lastWins r.document_highlights d = some dh ∧
        x ∈ dh.legally_significant_pages := by
  unfold lastDocPages
  cases h : lastWins r.document_highlights d with
  | none => simp
  | some dh => simp [h]

theorem mem_specPageUnion (r : ApprovalRequest) (d : String) (x : Int) :
    x ∈ specPageUnion r d ↔
      ((∃ dh, dh ∈ r.document_highlights ∧ dh.doc_id = d ∧
          x ∈ dh.legally_significant_pages) ∨
        ∃ ph, ph ∈ r.page_highlights ∧ ph.doc_id = d ∧ x ∈ ph.page_nums) := by
  unfold specPageUnion
  rw [List.mem_append, mem_pageNumsFor]
  simp only [List.mem_flatten, List.mem_map, List.mem_filter, decide_eq_true_eq]
  constructor
  · rintro (⟨l, ⟨dh, ⟨hmem, hid⟩, rfl⟩, hx⟩ | h)
    · exact Or.inl ⟨dh, hmem, hid, hx⟩
    · exact Or.inr h
  · rintro (⟨dh, hmem, hid, hx⟩ | h)
    · exact Or.inl ⟨dh.legally_significant_pages, ⟨dh, ⟨hmem, hid⟩, rfl⟩, hx⟩
    · exact Or.inr h

theorem jGet_decisionEnvelope (rid : String) (d : Json) :
    jGet (decisionEnvelope rid d) "decision" = some d := by
  simp [decisionEnvelope, jGet, jsMapGet]

theorem jGet_approveDecision_type :
    jGet approveDecision "type" = some (Json.str "approve") := by
  simp [approveDecision, jGet, jsMapGet]

theorem jGet_editDecision_type (n : String) (a : Json) :
    jGet (editDecision n a) "type" = some (Json.str "edit") := by
  simp [editDecision, jGet, jsMapGet]

theorem jGet_rejectDecision_type (reason : String) :
    jGet (rejectDecision reason) "type" = some (Json.str "reject") := by
  simp [rejectDecision, jGet, jsMapGet]

theorem jGet_editDecision_edited_args (n : String) (a : Json) :
    jGet (editDecision n a) "edited_args" = none := by
  simp [editDecision, jGet, jsMapGet]

theorem submitDecision_after_success (d d₁ : Json) (s s₁ : AppState) (m : Json)
    (h : submitDecision d s = (s₁, some m)) : submitDecision d₁ s₁ = (s₁, none) := by
  obtain ⟨r, _, _, _, hs⟩ := submitDecision_inv d s s₁ m h
  subst hs
  rfl

theorem submitMany_refused (ds : List Json) (s : AppState)
    (h : ∀ d, submitDecision d s = (s, none)) : submitMany ds s = (s, []) := by
  induction ds with
  | nil => rfl
  | cons d rest ih =>
    simp only [submitMany, h d]
    simpa using ih

theorem panelStep_send_inv (parse : String → Option Json) (stringify : Json → String)
    (ev : PanelEvent) (c c₁ : ClientState) (m : Json) (r : ApprovalRequest)
    (hui : c.store.uiState = UIState.awaiting_approval r)
    (h : panelStep parse stringify ev c = (c₁, some m)) :
    ∃ d, m = decisionEnvelope r.request_id d ∧
      ((ev = PanelEvent.clickApprove ∧ c.isEditing = false ∧ d = approveDecision) ∨
       (ev = PanelEvent.clickEdit ∧ "edit" ∈ r.allowed_decisions ∧
         c.isEditing = true ∧
         ∃ parsed, parse c.editedArgs = some parsed ∧
           d = editDecision r.tool_name parsed) ∨
       (ev = PanelEvent.clickReject ∧ "reject" ∈ r.allowed_decisions ∧
         c.isEditing = false ∧ d = rejectDecision "User rejected")) := by
  cases ev with
  | clickApprove =>
    simp only [panelStep, hui] at h
    by_cases hedit : c.isEditing = true
    · simp [hedit] at h
    · rw [if_neg hedit, Prod.mk.injEq] at h
      obtain ⟨hc₁, hm⟩ := h
      have hfull : submitDecision approveDecision c.store
          = ((submitDecision approveDecision c.store).1, some m) := by
        rw [← hm]
      obtain ⟨r₁, hui₁, hws, hmv, hs⟩ := submitDecision_inv _ _ _ _ hfull
      rw [hui] at hui₁
      obtain rfl : r = r₁ := by injection hui₁
      exact ⟨approveDecision, hmv,
        Or.inl ⟨rfl, by simpa using hedit, rfl⟩⟩
  | clickEdit =>
    simp only [panelStep, hui] at h
    by_cases hallow : "edit" ∈ r.allowed_decisions
    · by_cases hedit : c.isEditing = true
      · cases hp : parse c.editedArgs with
        | none => simp [hallow, hedit, hp] at h
        | some parsed =>
          rw [if_pos hallow, if_pos hedit, hp, Prod.mk.injEq] at h
          obtain ⟨hc₁, hm⟩ := h
          have hfull : submitDecision (editDecision r.tool_name parsed) c.store
              = ((submitDecision (editDecision r.tool_name parsed) c.store).1,
                  some m) := by
            rw [← hm]
          obtain ⟨r₁, hui₁, hws, hmv, hs⟩ := submitDecision_inv _ _ _ _ hfull
          rw [hui] at hui₁
          obtain rfl : r = r₁ := by injection hui₁
          exact ⟨editDecision r.tool_name parsed, hmv,
            Or.inr (Or.inl ⟨rfl, hallow, hedit, parsed, rfl, rfl⟩)⟩
      · simp [hallow, hedit] at h
    · simp [hallow] at h
  | clickReject =>
    simp only [panelStep, hui] at h
    by_cases hcond : "reject" ∈ r.allowed_decisions ∧ c.isEditing = false
    · rw [if_pos hcond, Prod.mk.injEq] at h
      obtain ⟨hc₁, hm⟩ := h
      have hfull : submitDecision (rejectDecision "User rejected") c.store
          = ((submitDecision (rejectDecision "User rejected") c.store).1,
              some m) := by
        rw [← hm]
      obtain ⟨r₁, hui₁, hws, hmv, hs⟩ := submitDecision_inv _ _ _ _ hfull
      rw [hui] at hui₁
      obtain rfl : r = r₁ := by injection hui₁
      exact ⟨rejectDecision "User rejected", hmv,
        Or.inr (Or.inr ⟨rfl, hcond.1, hcond.2, rfl⟩)⟩
    · rw [if_neg hcond] at h
      simp at h
  | clickCancel =>
    simp only [panelStep, hui] at h
    by_cases hedit : c.isEditing = true <;> simp [hedit] at h
  | setArgs text =>
    simp only [panelStep, hui] at h
    by_cases hedit : c.isEditing = true <;> simp [hedit] at h

/-- C3: whenever `submitDecision` is called while the UI projection is
`awaiting_approval` and the channel is open, then for every submitted
decision value the call clears the local highlight projection
(documents, pages and file paths all empty) and moves the UI projection to
`agent_running`. -/
theorem c3_submit_clears_projection (d : Json) (s : AppState) (r : ApprovalRequest)
    (hui : s.uiState = UIState.awaiting_approval r) (hws : s.ws = true) :
    (submitDecision d s).1.uiState = UIState.agent_running ∧
    (submitDecision d s).1.highlightedDocumentIds = [] ∧
    (submitDecision d s).1.highlightedPages = [] ∧
    (submitDecision d s).1.highlightedFilePaths = [] := by
  simp [submitDecision, hui, hws]

/-- Witness for C3 at a concrete awaiting state and the approve variant. -/
theorem c3_submit_clears_projection_witness :
    awaitingState.uiState = UIState.awaiting_approval sampleRequest ∧
    awaitingState.ws = true ∧
    ((submitDecision approveDecision awaitingState).1.uiState = UIState.agent_running ∧
     (submitDecision approveDecision awaitingState).1.highlightedDocumentIds = [] ∧
     (submitDecision approveDecision awaitingState).1.highlightedPages = [] ∧
     (submitDecision approveDecision awaitingState).1.highlightedFilePaths = []) :=
  ⟨rfl, rfl,
    c3_submit_clears_projection approveDecision awaitingState sampleRequest rfl rfl⟩

/-- C4: the client transmits exactly one decision per presented request.
With a closed channel or without a displayed request, `submitDecision`
sends nothing and changes nothing; after a successful submission every
further call is a no-op; any run of consecutive `submitDecision` calls
transmits at most one message; and a fresh `approval_request` re-enters
the `awaiting_approval` state. -/
theorem c4_single_decision_per_request :
    (∀ (d : Json) (s : AppState), s.ws = false → submitDecision d s = (s, none)) ∧
    (∀ (d : Json) (s : AppState),
      (∀ r, s.uiState ≠ UIState.awaiting_approval r) →
        submitDecision d s = (s, none)) ∧
    (∀ (d d₁ : Json) (s s₁ : AppState) (m : Json),
      submitDecision d s = (s₁, some m) → submitDecision d₁ s₁ = (s₁, none)) ∧
    (∀ (ds : List Json) (s : AppState), (submitMany ds s).2.length ≤ 1) ∧
    (∀ (r : ApprovalRequest) (s : AppState),
      (handleApprovalRequest r s).uiState = UIState.awaiting_approval r) := by
  refine ⟨?_, ?_, ?_, ?_, ?_⟩
  · intro d s hws
    cases hui : s.uiState <;> simp [submitDecision, hui, hws]
  · intro d s hnr
    cases hui : s.uiState with
    | awaiting_approval r => exact absurd hui (hnr r)
    | idle => simp [submitDecision, hui]
    | agent_running => simp [submitDecision, hui]
    | completed => simp [submitDecision, hui]
    | error msg => simp [submitDecision, hui]
  · intro d d₁ s s₁ m h
    exact submitDecision_after_success d d₁ s s₁ m h
  · intro ds s
    induction ds generalizing s with
    | nil => simp [submitMany]
    | cons d rest ih =>
      simp only [submitMany]
      cases ho : (submitDecision d s).2 with
      | none =>
        simpa using ih (submitDecision d s).1
      | some m =>
        have hfull : submitDecision d s = ((submitDecision d s).1, some m) := by
          rw [← ho]
        have hafter := fun d₁ =>
          submitDecision_after_success d d₁ s (submitDecision d s).1 m hfull
        rw [submitMany_refused rest (submitDecision d s).1 hafter]
        simp
  · intro r s
    rfl

/-- Witness for C4: a closed-channel call, a post-submission call and a
double submission on concrete states. -/
theorem c4_single_decision_per_request_witness :
    initialState.ws = false ∧
    submitDecision approveDecision initialState = (initialState, none) ∧
    submitDecision approveDecision awaitingState
      = (afterSubmitState, some (decisionEnvelope "req-1" approveDecision)) ∧
    submitDecision (rejectDecision "User rejected") afterSubmitState
      = (afterSubmitState, none) ∧
    (submitMany [approveDecision, approveDecision] awaitingState).2.length ≤ 1 ∧
    (handleApprovalRequest sampleRequest initialState).uiState
      = UIState.awaiting_approval sampleRequest :=
  ⟨rfl,
   c4_single_decision_per_request.1 approveDecision initialState rfl,
   rfl,
   c4_single_decision_per_request.2.2.1 approveDecision
     (rejectDecision "User rejected") awaitingState afterSubmitState
     (decisionEnvelope "req-1" approveDecision) rfl,
   c4_single_decision_per_request.2.2.2.1
     [approveDecision, approveDecision] awaitingState,
   c4_single_decision_per_request.2.2.2.2 sampleRequest initialState⟩

/-- C7: every message `submitDecision` transmits is the envelope with
fields type approval_decision, request_id and decision, and its request_id
is the request_id of the request displayed in `awaiting_approval`. -/
theorem c7_envelope_shape (d : Json) (s s₁ : AppState) (m : Json)
    (h : submitDecision d s = (s₁, some m)) :
    ∃ r, s.uiState = UIState.awaiting_approval r ∧
      m = decisionEnvelope r.request_id d ∧
      jGet m "type" = some (Json.str "approval_decision") ∧
      jGet m "request_id" = some (Json.str r.request_id) ∧
      jGet m "decision" = some d := by
  obtain ⟨r, hui, _, hm, _⟩ := submitDecision_inv d s s₁ m h
  subst hm
  refine ⟨r, hui, rfl, ?_, ?_, jGet_decisionEnvelope r.request_id d⟩
  · simp [decisionEnvelope, jGet, jsMapGet]
  · simp [decisionEnvelope, jGet, jsMapGet]

/-- Witness for C7 at a concrete submission from `awaitingState`. -/
theorem c7_envelope_shape_witness :
    submitDecision approveDecision awaitingState
      = (afterSubmitState, some (decisionEnvelope "req-1" approveDecision)) ∧
    jGet (decisionEnvelope "req-1" approveDecision) "type"
      = some (Json.str "approval_decision") ∧
    jGet (decisionEnvelope "req-1" approveDecision) "request_id"
      = some (Json.str "req-1") ∧
    jGet (decisionEnvelope "req-1" approveDecision) "decision"
      = some approveDecision := by
  obtain ⟨r, hui, hm, ht, hrid, hdec⟩ :=
    c7_envelope_shape approveDecision awaitingState afterSubmitState
      (decisionEnvelope "req-1" approveDecision) rfl
  have hinj : UIState.awaiting_approval sampleRequest
      = UIState.awaiting_approval r := hui
  obtain rfl : sampleRequest = r := by injection hinj
  exact ⟨rfl, ht, hrid, hdec⟩

/-- C8: `handleAgentStatus` maps status completed to the completed
projection, failed to the error projection carrying the details, running
to `agent_running`, and leaves the state unchanged on any other status. -/
theorem c8_agent_status (status details : String) (s : AppState) :
    (status = "completed" →
      handleAgentStatus status details s = { s with uiState := UIState.completed }) ∧
    (status = "failed" →
      handleAgentStatus status details s
        = { s with uiState := UIState.error details }) ∧
    (status = "running" →
      handleAgentStatus status details s
        = { s with uiState := UIState.agent_running }) ∧
    (status ≠ "completed" → status ≠ "failed" → status ≠ "running" →
      handleAgentStatus status details s = s) := by
  refine ⟨fun h => ?_, fun h => ?_, fun h => ?_, fun h₁ h₂ h₃ => ?_⟩
  · simp [handleAgentStatus, h]
  · simp [handleAgentStatus, h]
  · simp [handleAgentStatus, h]
  · simp [handleAgentStatus, h₁, h₂, h₃]

/-- Witness for C8 at the four status kinds on a concrete state. -/
theorem c8_agent_status_witness :
    handleAgentStatus "completed" "d" initialState
      = { initialState with uiState := UIState.completed } ∧
    handleAgentStatus "failed" "d" initialState
      = { initialState with uiState := UIState.error "d" } ∧
    handleAgentStatus "running" "d" initialState
      = { initialState with uiState := UIState.agent_running } ∧
    handleAgentStatus "paused" "d" initialState = initialState :=
  ⟨(c8_agent_status "completed" "d" initialState).1 rfl,
   (c8_agent_status "failed" "d" initialState).2.1 rfl,
   (c8_agent_status "running" "d" initialState).2.2.1 rfl,
   (c8_agent_status "paused" "d" initialState).2.2.2
     (by decide) (by decide) (by decide)⟩

/-- C10: a `submitDecision` call that transmits a message changes only the
UI projection and the three highlight collections; every other store field
is unchanged. -/
theorem c10_submit_frame (d : Json) (s s₁ : AppState) (m : Json)
    (h : submitDecision d s = (s₁, some m)) :
    s₁.sessionId = s.sessionId ∧ s₁.ws = s.ws ∧ s₁.documents = s.documents ∧
    s₁.selectedDocumentId = s.selectedDocumentId ∧
    s₁.selectedDocumentDetail = s.selectedDocumentDetail ∧
    s₁.files = s.files ∧ s₁.selectedFilePath = s.selectedFilePath ∧
    s₁.currentPdfPage = s.currentPdfPage ∧ s₁.todos = s.todos ∧
    s₁.workflowEvents = s.workflowEvents ∧
    s₁.leftPanelWidth = s.leftPanelWidth ∧
    s₁.rightPanelWidth = s.rightPanelWidth ∧
    s₁.centerTopHeight = s.centerTopHeight := by
  obtain ⟨r, _, _, _, hs⟩ := submitDecision_inv d s s₁ m h
  subst hs
  exact ⟨rfl, rfl, rfl, rfl, rfl, rfl, rfl, rfl, rfl, rfl, rfl, rfl, rfl⟩

/-- Witness for C10 at a concrete successful submission. -/
theorem c10_submit_frame_witness :
    submitDecision approveDecision awaitingState
      = (afterSubmitState, some (decisionEnvelope "req-1" approveDecision)) ∧
    (afterSubmitState.sessionId = awaitingState.sessionId ∧
     afterSubmitState.ws = awaitingState.ws ∧
     afterSubmitState.documents = awaitingState.documents ∧
     afterSubmitState.selectedDocumentId = awaitingState.selectedDocumentId ∧
     afterSubmitState.selectedDocumentDetail = awaitingState.selectedDocumentDetail ∧
     afterSubmitState.files = awaitingState.files ∧
     afterSubmitState.selectedFilePath = awaitingState.selectedFilePath ∧
     afterSubmitState.currentPdfPage = awaitingState.currentPdfPage ∧
     afterSubmitState.todos = awaitingState.todos ∧
     afterSubmitState.workflowEvents = awaitingState.workflowEvents ∧
     afterSubmitState.leftPanelWidth = awaitingState.leftPanelWidth ∧
     afterSubmitState.rightPanelWidth = awaitingState.rightPanelWidth ∧
     afterSubmitState.centerTopHeight = awaitingState.centerTopHeight) :=
  ⟨rfl,
   c10_submit_frame approveDecision awaitingState afterSubmitState
     (decisionEnvelope "req-1" approveDecision) rfl⟩

/-- C1 (counterexample): for `restrictedRequest`, whose allowed_decisions
are only reject, a click on the always-rendered Approve button transmits
an approval_decision whose decision is the approve variant — the claim
that variants outside allowed_decisions can never be transmitted fails. -/
theorem c1_counterexample_approve_not_guarded :
    "approve" ∉ restrictedRequest.allowed_decisions ∧
    (panelStep parseNone stringifySample PanelEvent.clickApprove restrictedClient).2
      = some (decisionEnvelope "req-1" approveDecision) ∧
    jGet (decisionEnvelope "req-1" approveDecision) "decision"
      = some approveDecision ∧
    jGet approveDecision "type" = some (Json.str "approve") := by
  refine ⟨by decide, rfl, ?_, ?_⟩
  · simp [decisionEnvelope, jGet, jsMapGet]
  · simp [approveDecision, jGet, jsMapGet]

/-- C1 (amended): while a request is displayed in `awaiting_approval`,
every transmitted decision is either the approve variant — which the
panel permits regardless of allowed_decisions — or an edit or reject
variant contained in the request's allowed_decisions. -/
theorem c1_amended_variant_guard (parse : String → Option Json)
    (stringify : Json → String) (ev : PanelEvent) (c c₁ : ClientState)
    (m : Json) (r : ApprovalRequest)
    (hui : c.store.uiState = UIState.awaiting_approval r)
    (h : panelStep parse stringify ev c = (c₁, some m)) :
    ∃ d t, jGet m "decision" = some d ∧ jGet d "type" = some (Json.str t) ∧
      (t = "approve" ∨
        (t ∈ r.allowed_decisions ∧ (t = "edit" ∨ t = "reject"))) := by
  obtain ⟨d, hm, hcase⟩ := panelStep_send_inv parse stringify ev c c₁ m r hui h
  subst hm
  rcases hcase with ⟨_, _, rfl⟩ | ⟨_, hallow, _, parsed, hp, rfl⟩ | ⟨_, hallow, _, rfl⟩
  · exact ⟨approveDecision, "approve", jGet_decisionEnvelope _ _,
      jGet_approveDecision_type, Or.inl rfl⟩
  · exact ⟨editDecision r.tool_name parsed, "edit", jGet_decisionEnvelope _ _,
      jGet_editDecision_type _ _, Or.inr ⟨hallow, Or.inl rfl⟩⟩
  · exact ⟨rejectDecision "User rejected", "reject", jGet_decisionEnvelope _ _,
      jGet_rejectDecision_type _, Or.inr ⟨hallow, Or.inr rfl⟩⟩

/-- Witness for the amended C1: a reject click on `restrictedClient`. -/
theorem c1_amended_variant_guard_witness :
    panelStep parseNone stringifySample PanelEvent.clickReject restrictedClient
      = (restrictedAfterClient,
          some (decisionEnvelope "req-1" (rejectDecision "User rejected"))) ∧
    ∃ d t, jGet (decisionEnvelope "req-1" (rejectDecision "User rejected"))
          "decision" = some d ∧
      jGet d "type" = some (Json.str t) ∧
      (t = "approve" ∨
        (t ∈ restrictedRequest.allowed_decisions ∧ (t = "edit" ∨ t = "reject"))) :=
  ⟨rfl,
   c1_amended_variant_guard parseNone stringifySample PanelEvent.clickReject
     restrictedClient restrictedAfterClient
     (decisionEnvelope "req-1" (rejectDecision "User rejected"))
     restrictedRequest rfl rfl⟩

/-- C5: a Confirm Edit click whose edited text does not parse is a local
validation failure: nothing is transmitted and the whole client state —
editing flag, edited text and the awaiting store — is unchanged. -/
theorem c5_invalid_edit_is_local (parse : String → Option Json)
    (stringify : Json → String) (c : ClientState) (r : ApprovalRequest)
    (hui : c.store.uiState = UIState.awaiting_approval r)
    (hedit : c.isEditing = true)
    (hparse : parse c.editedArgs = none) :
    panelStep parse stringify PanelEvent.clickEdit c = (c, none) := by
  simp only [panelStep, hui]
  by_cases hallow : "edit" ∈ r.allowed_decisions
  · simp [hallow, hedit, hparse]
  · simp [hallow]

/-- Witness for C5: the concrete editing client with unparseable text. -/
theorem c5_invalid_edit_is_local_witness :
    editingClient.store.uiState = UIState.awaiting_approval sampleRequest ∧
    editingClient.isEditing = true ∧
    parseNone editingClient.editedArgs = none ∧
    panelStep parseNone stringifySample PanelEvent.clickEdit editingClient
      = (editingClient, none) :=
  ⟨rfl, rfl, rfl,
   c5_invalid_edit_is_local parseNone stringifySample editingClient
     sampleRequest rfl rfl rfl⟩

/-- C6 (counterexample): a confirmed edit with valid JSON transmits a
decision object that nests the parsed map under edited_action (with the
tool name) and carries no edited_args field at all, falsifying the claim
that the decision is the Edit variant with an edited_args payload. -/
theorem c6_counterexample_edited_action_payload :
    (panelStep parseSample stringifySample PanelEvent.clickEdit editingClient).2
      = some (decisionEnvelope "req-1" editSample) ∧
    jGet editSample "edited_args" = none ∧
    jGet editSample "edited_action"
      = some (Json.obj [("name", Json.str "get_page_text"),
                        ("args", Json.obj [("doc_id", Json.str "d2")])]) := by
  refine ⟨rfl, ?_, ?_⟩
  · simp [editSample, editDecision, jGet, jsMapGet]
  · simp [editSample, editDecision, jGet, jsMapGet]

/-- C6 (amended): a confirmed edit whose text parses to a structured map
transmits exactly the edit-tagged decision whose edited_action carries the
displayed request's tool name and the parsed map as its args. -/
theorem c6_amended_edit_payload (parse : String → Option Json)
    (stringify : Json → String) (c c₁ : ClientState) (m : Json)
    (r : ApprovalRequest) (parsed : Json)
    (hui : c.store.uiState = UIState.awaiting_approval r)
    ( _hedit : c.isEditing = true)
    (hp : parse c.editedArgs = some parsed)
    (h : panelStep parse stringify PanelEvent.clickEdit c = (c₁, some m)) :
    m = decisionEnvelope r.request_id (editDecision r.tool_name parsed) ∧
    jGet m "decision" = some (editDecision r.tool_name parsed) ∧
    jGet (editDecision r.tool_name parsed) "type" = some (Json.str "edit") ∧
    jGet (editDecision r.tool_name parsed) "edited_action"
      = some (Json.obj [("name", Json.str r.tool_name), ("args", parsed)]) := by
  obtain ⟨d, hm, hcase⟩ :=
    panelStep_send_inv parse stringify PanelEvent.clickEdit c c₁ m r hui h
  subst hm
  rcases hcase with ⟨hev, _, _⟩ | ⟨_, hallow, _, parsed₁, hp₁, rfl⟩ | ⟨hev, _, _⟩
  · exact PanelEvent.noConfusion hev
  · rw [hp] at hp₁
    obtain rfl : parsed = parsed₁ := by injection hp₁
    exact ⟨rfl, jGet_decisionEnvelope _ _, jGet_editDecision_type _ _,
      by simp [editDecision, jGet, jsMapGet]⟩
  · exact PanelEvent.noConfusion hev

/-- Witness for the amended C6 at the concrete editing client. -/
theorem c6_amended_edit_payload_witness :
    editingClient.isEditing = true ∧
    parseSample editingClient.editedArgs
      = some (Json.obj [("doc_id", Json.str "d2")]) ∧
    panelStep parseSample stringifySample PanelEvent.clickEdit editingClient
      = (editingAfterClient, some (decisionEnvelope "req-1" editSample)) ∧
    (decisionEnvelope "req-1" editSample
        = decisionEnvelope sampleRequest.request_id
            (editDecision sampleRequest.tool_name
              (Json.obj [("doc_id", Json.str "d2")])) ∧
      jGet (decisionEnvelope "req-1" editSample) "decision"
        = some (editDecision sampleRequest.tool_name
            (Json.obj [("doc_id", Json.str "d2")])) ∧
      jGet (editDecision sampleRequest.tool_name
          (Json.obj [("doc_id", Json.str "d2")])) "type"
        = some (Json.str "edit") ∧
      jGet (editDecision sampleRequest.tool_name
          (Json.obj [("doc_id", Json.str "d2")])) "edited_action"
        = some (Json.obj [("name", Json.str sampleRequest.tool_name),
                          ("args", Json.obj [("doc_id", Json.str "d2")])])) :=
  ⟨rfl, rfl, rfl,
   c6_amended_edit_payload parseSample stringifySample editingClient
     editingAfterClient (decisionEnvelope "req-1" editSample) sampleRequest
     (Json.obj [("doc_id", Json.str "d2")]) rfl rfl rfl rfl⟩

/-- C9: when a request with a non-empty document_highlights list arrives
and no document is selected (the code's truthiness test: null or empty
id), the client auto-selects the doc_id of the first document highlight;
when a document is already selected the selection is unchanged. -/
theorem c9_autoselect_first_document (r : ApprovalRequest) (s : AppState) :
    (∀ dh rest, r.document_highlights = dh :: rest →
      jsFalsy s.selectedDocumentId = true →
      (handleApprovalRequest r s).selectedDocumentId = some dh.doc_id) ∧
    (jsFalsy s.selectedDocumentId = false →
      (handleApprovalRequest r s).selectedDocumentId = s.selectedDocumentId) := by
  constructor
  · intro dh rest hdh hf
    have hne := jsSetFrom_cons_ne_nil dh.doc_id (rest.map DocumentHighlight.doc_id)
    have hlen : 0 < (jsSetFrom (dh.doc_id :: rest.map DocumentHighlight.doc_id)).length :=
      List.length_pos.mpr hne
    simp only [handleApprovalRequest, hdh, List.map_cons]
    rw [if_pos ⟨hlen, hf⟩]
    exact jsSetFrom_cons_head dh.doc_id (rest.map DocumentHighlight.doc_id)
  · intro hf
    simp only [handleApprovalRequest]
    rw [if_neg (by simp [hf])]

/-- Witness for C9: auto-selection from the empty selection and
preservation of an existing selection. -/
theorem c9_autoselect_first_document_witness :
    jsFalsy initialState.selectedDocumentId = true ∧
    (handleApprovalRequest sampleRequest initialState).selectedDocumentId
      = some "d1" ∧
    jsFalsy (AppState.selectedDocumentId
        { initialState with selectedDocumentId := some "docX" }) = false ∧
    (handleApprovalRequest sampleRequest
        { initialState with selectedDocumentId := some "docX" }).selectedDocumentId
      = some "docX" :=
  ⟨rfl,
   (c9_autoselect_first_document sampleRequest initialState).1
     { doc_id := "d1", reason := "lease review",
       legally_significant_pages := [3, 4], all_pages_summary := [] }
     [] rfl rfl,
   rfl,
   (c9_autoselect_first_document sampleRequest
     { initialState with selectedDocumentId := some "docX" }).2 rfl⟩

/-- C2 (counterexample): `dupDocRequest` carries two document highlights
for doc_id d with pages 1 and 2; the claim's union contains page 1, but
the computed map holds only the last highlight's pages, so page 1 is
missing. -/
theorem c2_counterexample_last_wins :
    (1 : Int) ∈ specPageUnion dupDocRequest "d" ∧
    jsMapGet (handleApprovalRequest dupDocRequest initialState).highlightedPages "d"
      = some [2] ∧
    (1 : Int) ∉ ([2] : List Int) := by
  refine ⟨by decide, by decide, by decide⟩

/-- C2 (amended): the document-id and file-path projections are exactly
the sets drawn from the request's highlight lists; the page map sends each
doc_id to the union of the page_nums of its page highlights with the
legally significant pages of the last document highlight bearing that
doc_id (earlier ones are overwritten); when the document highlights carry
pairwise distinct doc_ids this coincides with the claim's full union. -/
theorem c2_amended_highlight_projection (r : ApprovalRequest) (s : AppState) :
    (∀ d, d ∈ (handleApprovalRequest r s).highlightedDocumentIds ↔
        d ∈ r.document_highlights.map DocumentHighlight.doc_id) ∧
    (∀ p, p ∈ (handleApprovalRequest r s).highlightedFilePaths ↔
        p ∈ r.file_highlights.map FileHighlight.file_path) ∧
    (∀ d x, (∃ v, jsMapGet (handleApprovalRequest r s).highlightedPages d
          = some v ∧ x ∈ v) ↔
        (x ∈ lastDocPages r d ∨ x ∈ pageNumsFor r d)) ∧
    ((r.document_highlights.map DocumentHighlight.doc_id).Nodup →
      ∀ d x, (∃ v, jsMapGet (handleApprovalRequest r s).highlightedPages d
          = some v ∧ x ∈ v) ↔
        x ∈ specPageUnion r d) := by
  have hpages : (handleApprovalRequest r s).highlightedPages
      = r.page_highlights.foldl pageHighlightStep
          (r.document_highlights.foldl docHighlightStep []) := rfl
  have hchar : ∀ d x,
      (∃ v, jsMapGet (handleApprovalRequest r s).highlightedPages d
          = some v ∧ x ∈ v) ↔
        (x ∈ lastDocPages r d ∨ x ∈ pageNumsFor r d) := by
    intro d x
    rw [hpages, pageFold_mem]
    apply or_congr
    · rw [docFold_get, mem_lastDocPages]
      cases h : lastWins r.document_highlights d with
      | none => simp [jsMapGet]
      | some dh => simp [mem_jsSetFrom]
    · exact (mem_pageNumsFor r d x).symm
  refine ⟨?_, ?_, hchar, ?_⟩
  · intro d
    exact mem_jsSetFrom (r.document_highlights.map DocumentHighlight.doc_id) d
  · intro p
    exact mem_jsSetFrom (r.file_highlights.map FileHighlight.file_path) p
  · intro hnd d x
    rw [hchar d x, mem_specPageUnion]
    apply or_congr
    · rw [mem_lastDocPages]
      constructor
      · rintro ⟨dh, hlw, hx⟩
        have hm := lastWins_mem r.document_highlights d dh hlw
        exact ⟨dh, hm.1, hm.2, hx⟩
      · rintro ⟨dh, hmem, hid, hx⟩
        exact ⟨dh, lastWins_of_nodup r.document_highlights d hnd dh hmem hid, hx⟩
    · exact mem_pageNumsFor r d x

/-- Witness for the amended C2 at `sampleRequest`, whose document
highlights have distinct doc_ids. -/
theorem c2_amended_highlight_projection_witness :
    (sampleRequest.document_highlights.map DocumentHighlight.doc_id).Nodup ∧
    ((∃ v, jsMapGet (handleApprovalRequest sampleRequest initialState).highlightedPages
          "d1" = some v ∧ (3 : Int) ∈ v) ↔
      (3 : Int) ∈ specPageUnion sampleRequest "d1") ∧
    ("d1" ∈ (handleApprovalRequest sampleRequest initialState).highlightedDocumentIds ↔
      "d1" ∈ sampleRequest.document_highlights.map DocumentHighlight.doc_id) ∧
    ("report.md" ∈ (handleApprovalRequest sampleRequest initialState).highlightedFilePaths ↔
      "report.md" ∈ sampleRequest.file_highlights.map FileHighlight.file_path) :=
  ⟨by decide,
   (c2_amended_highlight_projection sampleRequest initialState).2.2.2
     (by decide) "d1" 3,
   (c2_amended_highlight_projection sampleRequest initialState).1 "d1",
   (c2_amended_highlight_projection sampleRequest initialState).2.1 "report.md"⟩
